import Mathlib

/-!
Verification of the calendar slot scheduler in src/main.py.

Shallow embedding conventions:

* Timestamps are modelled as natural numbers counting microseconds from an
  arbitrary local midnight.  Python datetimes in this code always carry whole
  microseconds, every day is 24 hours (the code treats the timezone as a fixed
  offset), so datetime arithmetic is exactly Nat arithmetic on microseconds.
  A timestamp t has minute-of-hour t / usPerMin % 60, sub-minute remainder
  t % usPerMin, and calendar date t / usPerDay.
* Half-open intervals [start, stop) are pairs (start, stop) of timestamps.
* Database access in _generate_free_slots and the hint/date parsers are
  external collaborators: the embedded functions take the busy-interval list,
  the resolved preferred-time hint and the parsed deadline as parameters.
* Durations arrive as hours (Python float) and are clamped to [0.5, 6.0].
  The embedding carries them in microseconds (an Int, so that negative inputs
  clamp exactly as in Python); the clamp max 0.5 (min h 6.0) commutes with the
  exact unit conversion.  A missing or unparsable value is modelled as none.
-/

def usPerSec : Nat := 1000000

def usPerMin : Nat := 60 * usPerSec

def usPerHour : Nat := 60 * usPerMin

def usPerDay : Nat := 24 * usPerHour

/-- The fixed 30-minute buffer enforced after each placed assignment. -/
def bufferUs : Nat := 30 * usPerMin

/-- Python dt.replace(second=0, microsecond=0): floor to the whole minute. -/
def floorMinute (t : Nat) : Nat := t / usPerMin * usPerMin

/-- Python dt.replace(minute=0, second=0, microsecond=0): floor to the hour. -/
def floorHour (t : Nat) : Nat := t / usPerHour * usPerHour

/-- Python dt.minute. -/
def minuteOfHour (t : Nat) : Nat := t / usPerMin % 60

/-- Embedding of _round_to_nearest_half_hour (src/main.py:2362).
The first branch fires when minute < 15 and second == microsecond == 0 and
returns the timestamp floored to its (already whole) minute, i.e. unchanged. -/
def round_to_nearest_half_hour (t : Nat) : Nat :=
  if minuteOfHour t < 15 ∧ t % usPerMin = 0 then floorMinute t
  else if minuteOfHour t < 15 then floorHour t + 30 * usPerMin
  else if minuteOfHour t < 45 then floorHour t + 30 * usPerMin
  else floorHour t + usPerHour

/-- C3 counterexample: 00:05:00.000000 is returned unchanged by the rounder,
yet it does not lie on the :00/:30 grid, refuting the claim that every result
lies on the grid and that only grid timestamps pass through unchanged. -/
theorem round_offgrid_fixed_point :
    round_to_nearest_half_hour (5 * usPerMin) = 5 * usPerMin ∧
    ¬ (5 * usPerMin) % (30 * usPerMin) = 0 := by
  decide

/-- C3 (amended): the rounder returns t unchanged exactly when t has zero
sub-minute remainder and minute-of-hour in [0,15) or exactly 30; any other t
with minute-of-hour in [0,15) rounds up to :30 of the same hour, [15,45)
rounds to :30 of the same hour, [45,60) rounds to :00 of the next hour; and
every result is on the :00/:30 grid except the unchanged off-grid inputs. -/
theorem round_half_hour_characterization (t : Nat) :
    (round_to_nearest_half_hour t = t ↔
      t % usPerMin = 0 ∧ (minuteOfHour t < 15 ∨ minuteOfHour t = 30)) ∧
    (minuteOfHour t < 15 → t % usPerMin ≠ 0 →
      round_to_nearest_half_hour t = floorHour t + 30 * usPerMin) ∧
    (15 ≤ minuteOfHour t → minuteOfHour t < 45 →
      round_to_nearest_half_hour t = floorHour t + 30 * usPerMin) ∧
    (45 ≤ minuteOfHour t →
      round_to_nearest_half_hour t = floorHour t + usPerHour) ∧
    (round_to_nearest_half_hour t % (30 * usPerMin) = 0 ∨
      round_to_nearest_half_hour t = t) := by
  simp only [round_to_nearest_half_hour, minuteOfHour, floorMinute, floorHour,
    usPerMin, usPerHour, usPerSec]
  split_ifs <;> refine ⟨?_, ?_, ?_, ?_, ?_⟩ <;> omega

/-- C3 witness: 00:16:00 has minute-of-hour in [15,45) and rounds to 00:30. -/
theorem round_half_hour_characterization_witness :
    round_to_nearest_half_hour (16 * usPerMin) =
      floorHour (16 * usPerMin) + 30 * usPerMin :=
  (round_half_hour_characterization (16 * usPerMin)).2.2.1 (by decide) (by decide)

/-- C9: the boundary rounder is idempotent. -/
theorem round_half_hour_idempotent (t : Nat) :
    round_to_nearest_half_hour (round_to_nearest_half_hour t) =
      round_to_nearest_half_hour t := by
  simp only [round_to_nearest_half_hour, minuteOfHour, floorMinute, floorHour,
    usPerMin, usPerHour, usPerSec]
  split_ifs <;> omega

/-- Pieces contributed by one free segment when the busy interval is removed,
before the final positive-length filter (loop body of _subtract_interval,
src/main.py:2408).  The no-overlap test is busy_end <= start or busy_start >=
end; otherwise the head piece is emitted when busy_start > start and the tail
piece when busy_end < end. -/
def segPieces (busy seg : Nat × Nat) : List (Nat × Nat) :=
  if busy.2 ≤ seg.1 ∨ seg.2 ≤ busy.1 then [seg]
  else
    (if seg.1 < busy.1 then [(seg.1, busy.1)] else []) ++
    (if busy.2 < seg.2 then [(busy.2, seg.2)] else [])

/-- Embedding of _subtract_interval (src/main.py:2405): accumulate the pieces
of each segment in order, then keep the pieces with start < end. -/
def subtract_interval (segments : List (Nat × Nat)) (busy : Nat × Nat) :
    List (Nat × Nat) :=
  (segments.foldr (fun seg acc => segPieces busy seg ++ acc) []).filter
    (fun s => s.1 < s.2)

/-- A point p lies in the half-open interval iv. -/
def memIv (p : Nat) (iv : Nat × Nat) : Prop := iv.1 ≤ p ∧ p < iv.2

instance (p : Nat) (iv : Nat × Nat) : Decidable (memIv p iv) :=
  inferInstanceAs (Decidable (_ ∧ _))

theorem subtract_interval_nil (busy : Nat × Nat) :
    subtract_interval [] busy = [] := rfl

theorem subtract_interval_cons (x : Nat × Nat) (rest : List (Nat × Nat))
    (busy : Nat × Nat) :
    subtract_interval (x :: rest) busy =
      (segPieces busy x).filter (fun s => s.1 < s.2) ++
        subtract_interval rest busy := by
  simp [subtract_interval, List.filter_append]

@[simp] theorem memIv_mk (p a b : Nat) : memIv p (a, b) ↔ a ≤ p ∧ p < b :=
  Iff.rfl

theorem segPieces_sound (busy seg piece : Nat × Nat)
    (hmem : piece ∈ segPieces busy seg) (p : Nat) (hp : memIv p piece) :
    memIv p seg ∧ ¬ memIv p busy := by
  obtain ⟨s, e⟩ := seg
  obtain ⟨bs, be⟩ := busy
  unfold segPieces at hmem
  dsimp only at hmem
  split_ifs at hmem with h1 h2 h3 h4 h5 <;>
    simp only [List.mem_append, List.mem_singleton, List.not_mem_nil, or_false,
      false_or] at hmem
  all_goals first
    | (rcases hmem with rfl | rfl) | (subst hmem)
  all_goals simp only [memIv_mk] at hp ⊢
  all_goals omega

/-- Soundness of subtraction: every point of every output piece lies in some
input segment and outside the busy interval. -/
theorem subtract_interval_sound (segments : List (Nat × Nat))
    (busy : Nat × Nat) (piece : Nat × Nat)
    (hmem : piece ∈ subtract_interval segments busy) (p : Nat)
    (hp : memIv p piece) :
    (∃ seg ∈ segments, memIv p seg) ∧ ¬ memIv p busy := by
  induction segments with
  | nil => simp [subtract_interval] at hmem
  | cons x rest ih =>
    rw [subtract_interval_cons] at hmem
    rcases List.mem_append.1 hmem with hx | hrest
    · obtain ⟨hx1, -⟩ := List.mem_filter.1 hx
      obtain ⟨hseg, hnb⟩ := segPieces_sound busy x piece hx1 p hp
      exact ⟨⟨x, List.mem_cons_self x rest, hseg⟩, hnb⟩
    · obtain ⟨⟨seg, hseg, hpseg⟩, hnb⟩ := ih hrest
      exact ⟨⟨seg, List.mem_cons_of_mem x hseg, hpseg⟩, hnb⟩

theorem segPieces_countP (busy seg : Nat × Nat) (hb : busy.1 < busy.2)
    (p : Nat) :
    ((segPieces busy seg).filter (fun s => s.1 < s.2)).countP
        (fun iv => decide (memIv p iv)) =
      if memIv p seg ∧ ¬ memIv p busy then 1 else 0 := by
  obtain ⟨s, e⟩ := seg
  obtain ⟨bs, be⟩ := busy
  rw [List.countP_filter]
  unfold segPieces
  dsimp only at hb ⊢
  split_ifs with h1 h2 h3 h4 h5 h6 h7 <;>
    simp_all only [List.countP_append, List.countP_cons, List.countP_nil,
      memIv_mk, Bool.and_eq_true, decide_eq_true_eq, true_and, and_true] <;>
    first
      | omega
      | (split_ifs <;> omega)

theorem subtract_interval_countP (segments : List (Nat × Nat))
    (busy : Nat × Nat) (hb : busy.1 < busy.2) (p : Nat) :
    (subtract_interval segments busy).countP (fun iv => decide (memIv p iv)) =
      segments.countP (fun seg => decide (memIv p seg ∧ ¬ memIv p busy)) := by
  induction segments with
  | nil => simp [subtract_interval]
  | cons x rest ih =>
    rw [subtract_interval_cons, List.countP_append, List.countP_cons, ih,
      segPieces_countP busy x hb p]
    by_cases h : memIv p x ∧ ¬ memIv p busy
    · simp [h, Nat.add_comm]
    · simp [h]

theorem countP_memIv_eq_one (p : Nat) (segs : List (Nat × Nat))
    (hdisj : segs.Pairwise (fun a b => ∀ q, ¬ (memIv q a ∧ memIv q b)))
    (hmem : ∃ seg ∈ segs, memIv p seg) :
    segs.countP (fun seg => decide (memIv p seg)) = 1 := by
  induction segs with
  | nil => simp at hmem
  | cons x rest ih =>
    rw [List.countP_cons]
    rcases List.pairwise_cons.1 hdisj with ⟨hx, hrest⟩
    by_cases h : memIv p x
    · have hz : rest.countP (fun seg => decide (memIv p seg)) = 0 := by
        rw [List.countP_eq_zero]
        intro seg hseg
        simp only [decide_eq_true_eq]
        exact fun hp2 => hx seg hseg p ⟨h, hp2⟩
      simp [hz, h]
    · obtain ⟨seg, hseg, hp2⟩ := hmem
      rcases List.mem_cons.1 hseg with rfl | hseg2
      · exact absurd hp2 h
      · rw [ih hrest ⟨seg, hseg2, hp2⟩]
        simp [h]

/-- C2 (amended): every point of every output piece of _subtract_interval
lies in some input segment and not in the busy interval; and, provided the
busy interval is a well-formed TimeInterval (start < end) and the input
segments are pairwise disjoint, every point of an input segment that is not
in the busy interval lies in exactly one output piece.  (Without the
disjointness proviso the point can lie in several output pieces.) -/
theorem subtract_interval_correct (segments : List (Nat × Nat))
    (busy : Nat × Nat) :
    (∀ piece ∈ subtract_interval segments busy, ∀ p, memIv p piece →
      (∃ seg ∈ segments, memIv p seg) ∧ ¬ memIv p busy) ∧
    (busy.1 < busy.2 →
      segments.Pairwise (fun a b => ∀ q, ¬ (memIv q a ∧ memIv q b)) →
      ∀ p, (∃ seg ∈ segments, memIv p seg) → ¬ memIv p busy →
        (subtract_interval segments busy).countP
          (fun iv => decide (memIv p iv)) = 1) := by
  constructor
  · intro piece hmem p hp
    exact subtract_interval_sound segments busy piece hmem p hp
  · intro hb hdisj p hmem hnb
    rw [subtract_interval_countP segments busy hb p]
    have hcongr : segments.countP
        (fun seg => decide (memIv p seg ∧ ¬ memIv p busy)) =
        segments.countP (fun seg => decide (memIv p seg)) := by
      apply List.countP_congr
      intro seg hseg
      simp [hnb]
    rw [hcongr, countP_memIv_eq_one p segments hdisj hmem]

/-- C2 counterexample: with overlapping (non-disjoint) input segments, the
point 7 lies in an input segment and not in the busy interval, yet it lies in
two output pieces, not exactly one. -/
theorem subtract_exactly_one_cex :
    (∃ seg ∈ [((0 : Nat), 10), (5, 15)], memIv 7 seg) ∧
    ¬ memIv 7 (20, 30) ∧
    (subtract_interval [((0 : Nat), 10), (5, 15)] (20, 30)).countP
      (fun iv => decide (memIv 7 iv)) = 2 := by
  decide

/-- C2 witness: subtracting [3,5) from the single segment [0,10) leaves the
point 7 in exactly one output piece. -/
theorem subtract_interval_correct_witness :
    (subtract_interval [((0 : Nat), 10)] (3, 5)).countP
      (fun iv => decide (memIv 7 iv)) = 1 :=
  (subtract_interval_correct [((0 : Nat), 10)] (3, 5)).2 (by decide)
    (by simp) 7 ⟨(0, 10), by simp, by decide⟩ (by decide)

/-- Stable insertion into a list: x goes in front of the first element y with
le x y.  Together with sortLe below this is a stable sort, the model of
Python list.sort (which is guaranteed stable): elements the comparison ties
keep their original relative order. -/
def insertLe (le : α → α → Bool) (x : α) : List α → List α
  | [] => [x]
  | y :: ys => if le x y then x :: y :: ys else y :: insertLe le x ys

/-- Stable insertion sort, the model of Python list.sort. -/
def sortLe (le : α → α → Bool) (l : List α) : List α :=
  l.foldr (insertLe le) []

theorem mem_insertLe (le : α → α → Bool) (x : α) (l : List α) (y : α) :
    y ∈ insertLe le x l ↔ y = x ∨ y ∈ l := by
  induction l with
  | nil => simp [insertLe]
  | cons z zs ih =>
    unfold insertLe
    split_ifs <;> simp [ih] <;> tauto

theorem mem_sortLe (le : α → α → Bool) (l : List α) (y : α) :
    y ∈ sortLe le l ↔ y ∈ l := by
  induction l with
  | nil => simp [sortLe]
  | cons z zs ih =>
    simp only [sortLe, List.foldr_cons] at *
    rw [mem_insertLe, ih, List.mem_cons]

/-- Two insertions commute when b strictly precedes x in the order. -/
theorem insertLe_comm (le : α → α → Bool) (b x : α)
    (hbx : le b x = true) (hxb : le x b = false)
    (htr : ∀ c, le x c = true → le b c = true) (l : List α) :
    insertLe le b (insertLe le x l) = insertLe le x (insertLe le b l) := by
  induction l with
  | nil => simp [insertLe, hbx, hxb]
  | cons y ys ih =>
    by_cases hxy : le x y = true
    · have hby : le b y = true := htr y hxy
      simp [insertLe, hxy, hby, hbx, hxb]
    · by_cases hby : le b y = true
      · simp only [insertLe, hxy, hby, hxb]
        simp [insertLe, hxy, hby, hxb]
      · simp only [insertLe, hxy, hby]
        simp [insertLe, hxy, hby, ih]

/-- Inserting x commutes past folding in a batch of elements that all
strictly precede x. -/
theorem foldr_insertLe_comm (le : α → α → Bool) (x : α) (front : List α)
    (hfront : ∀ b ∈ front, le b x = true ∧ le x b = false ∧
      ∀ c, le x c = true → le b c = true) (l : List α) :
    front.foldr (insertLe le) (insertLe le x l) =
      insertLe le x (front.foldr (insertLe le) l) := by
  induction front with
  | nil => rfl
  | cons b rest ih =>
    have hb := hfront b (List.mem_cons_self b rest)
    have hrest : ∀ y ∈ rest, le y x = true ∧ le x y = false ∧
        ∀ c, le x c = true → le y c = true :=
      fun y hy => hfront y (List.mem_cons_of_mem b hy)
    simp only [List.foldr_cons, ih hrest]
    exact insertLe_comm le b x hb.1 hb.2.1 hb.2.2 (rest.foldr (insertLe le) l)

/-- Sorting a partition (all p-elements first, then all non-p-elements) with
a stable sort gives the same list as sorting the original, provided every
p-element strictly precedes every non-p-element in the order. -/
theorem sortLe_filter_partition (le : α → α → Bool) (p : α → Bool)
    (hp : ∀ a b, p a = true → p b = false →
      le a b = true ∧ le b a = false ∧ ∀ c, le b c = true → le a c = true)
    (l : List α) :
    sortLe le (l.filter p ++ l.filter (fun a => !p a)) = sortLe le l := by
  induction l with
  | nil => rfl
  | cons x rest ih =>
    simp only [sortLe] at ih ⊢
    rw [List.foldr_append] at ih
    by_cases hx : p x = true
    · rw [List.filter_cons_of_pos hx,
        List.filter_cons_of_neg (by simp [hx]),
        List.cons_append, List.foldr_cons, List.foldr_append,
        List.foldr_cons, ih]
    · have hx2 : p x = false := by
        cases h : p x
        · rfl
        · exact absurd h hx
      rw [List.filter_cons_of_neg (by simp [hx2]),
        List.filter_cons_of_pos (by simp [hx2]),
        List.foldr_append, List.foldr_cons,
        foldr_insertLe_comm le x (rest.filter p)
          (fun b hb => hp b x ((List.mem_filter.1 hb).2) hx2),
        List.foldr_cons, ih]

/-- The comparison used on interval lists: sort ascending by start, the
model of Python list.sort(key=lambda s: s[0]). -/
def leStart (a b : Nat × Nat) : Bool := decide (a.1 ≤ b.1)

def sortByStart (l : List (Nat × Nat)) : List (Nat × Nat) := sortLe leStart l

/-- Slot-queue construction of _schedule_ai_subtasks (src/main.py:2701):
with a deadline, partition the free slots into those starting at or before
the deadline and those starting after it, concatenate, and sort ascending by
start; without a deadline, copy and sort. -/
def buildSlotQueue (free_slots : List (Nat × Nat)) (due : Option Nat) :
    List (Nat × Nat) :=
  match due with
  | some d =>
    sortByStart ((free_slots.filter (fun s => decide (s.1 ≤ d))) ++
      (free_slots.filter (fun s => decide (d < s.1))))
  | none => sortByStart free_slots

/-- C8: the deadline-based before/after partition of the slot queue is
erased by the subsequent stable ascending sort; the queue it produces is
identical to sorting the free-slot list directly. -/
theorem buildSlotQueue_partition_noop (free_slots : List (Nat × Nat))
    (d : Nat) :
    buildSlotQueue free_slots (some d) = buildSlotQueue free_slots none := by
  show sortByStart ((free_slots.filter (fun s => decide (s.1 ≤ d))) ++
      (free_slots.filter (fun s => decide (d < s.1)))) = sortByStart free_slots
  unfold sortByStart
  have hfilter : free_slots.filter (fun s => decide (d < s.1)) =
      free_slots.filter (fun s => !(decide (s.1 ≤ d))) := by
    apply List.filter_congr
    intro x _
    by_cases h : x.1 ≤ d
    · simp [h, Nat.not_lt.2 h]
    · simp [h, Nat.lt_of_not_le h]
  rw [hfilter]
  apply sortLe_filter_partition
  intro a b ha hb
  simp only [leStart, decide_eq_true_eq] at ha ⊢
  have hb2 : d < b.1 := by
    by_contra hc
    simp [Nat.not_lt.1 hc] at hb
  refine ⟨by omega, ?_, ?_⟩
  · simp only [decide_eq_false_iff_not]
    omega
  · intro c hc
    omega

/-- Inner busy loop of _generate_free_slots (src/main.py:2466): subtract
every busy interval whose start date matches the day being processed.  The
source also exits the loop early once the segment list is empty; since
subtracting from an empty list yields an empty list, that early exit is
observationally the identity and is not modelled. -/
def subtractDayBusy (day : Nat) (busy : List (Nat × Nat))
    (segs : List (Nat × Nat)) : List (Nat × Nat) :=
  busy.foldl
    (fun acc b => if b.1 / usPerDay = day then subtract_interval acc b else acc)
    segs

/-- One day of _generate_free_slots (src/main.py:2457): skip a fully elapsed
working window, clip the window start to now, subtract the day's busy
intervals and keep the segments of at least 30 minutes. -/
def daySlots (now : Nat) (busy : List (Nat × Nat)) (day : Nat) :
    List (Nat × Nat) :=
  if day * usPerDay + 21 * usPerHour ≤ now then []
  else
    (subtractDayBusy day busy
      [(if day * usPerDay + 9 * usPerHour < now then now
        else day * usPerDay + 9 * usPerHour,
        day * usPerDay + 21 * usPerHour)]).filter
      (fun s => 30 * usPerMin ≤ s.2 - s.1)

/-- Embedding of _generate_free_slots (src/main.py:2429) downstream of the
database boundary: busyRaw is the adapted event list (rows with both
timestamps).  The function keeps the busy intervals ending after now, sorts
them by start, and concatenates each horizon day's kept segments. -/
def generate_free_slots (now : Nat) (busyRaw : List (Nat × Nat))
    (horizonDays : Nat) : List (Nat × Nat) :=
  (List.range horizonDays).foldl
    (fun acc dayOffset =>
      acc ++ daySlots now
        (sortByStart (busyRaw.filter (fun b => decide (now < b.2))))
        (now / usPerDay + dayOffset))
    []

theorem mem_foldl_append {α β : Type} (g : β → List α) (ds : List β) :
    ∀ (init : List α) (x : α),
      x ∈ ds.foldl (fun acc d => acc ++ g d) init →
        x ∈ init ∨ ∃ d ∈ ds, x ∈ g d := by
  induction ds with
  | nil => intro init x h; exact Or.inl h
  | cons d rest ih =>
    intro init x h
    simp only [List.foldl_cons] at h
    rcases ih (init ++ g d) x h with h2 | ⟨d2, hd2, hx⟩
    · rcases List.mem_append.1 h2 with h3 | h3
      · exact Or.inl h3
      · exact Or.inr ⟨d, List.mem_cons_self d rest, h3⟩
    · exact Or.inr ⟨d2, List.mem_cons_of_mem d hd2, hx⟩

theorem subtractDayBusy_sound (day : Nat) (busy : List (Nat × Nat)) :
    ∀ (segs : List (Nat × Nat)) (piece : Nat × Nat),
      piece ∈ subtractDayBusy day busy segs → ∀ p, memIv p piece →
        (∃ seg ∈ segs, memIv p seg) ∧
        ∀ b ∈ busy, b.1 / usPerDay = day → ¬ memIv p b := by
  induction busy with
  | nil =>
    intro segs piece h p hp
    exact ⟨⟨piece, h, hp⟩, by simp⟩
  | cons b rest ih =>
    intro segs piece h p hp
    simp only [subtractDayBusy, List.foldl_cons] at h
    obtain ⟨⟨seg, hseg, hpseg⟩, hrest⟩ := ih _ piece h p hp
    by_cases hd : b.1 / usPerDay = day
    · rw [if_pos hd] at hseg
      obtain ⟨⟨seg0, hseg0, hpseg0⟩, hnb⟩ :=
        subtract_interval_sound _ b seg hseg p hpseg
      refine ⟨⟨seg0, hseg0, hpseg0⟩, ?_⟩
      intro b2 hb2 hd2
      rcases List.mem_cons.1 hb2 with rfl | hb3
      · exact hnb
      · exact hrest b2 hb3 hd2
    · rw [if_neg hd] at hseg
      refine ⟨⟨seg, hseg, hpseg⟩, ?_⟩
      intro b2 hb2 hd2
      rcases List.mem_cons.1 hb2 with rfl | hb3
      · exact absurd hd2 hd
      · exact hrest b2 hb3 hd2

theorem daySlots_minlen (now : Nat) (busy : List (Nat × Nat)) (day : Nat)
    (slot : Nat × Nat) (hmem : slot ∈ daySlots now busy day) :
    30 * usPerMin ≤ slot.2 - slot.1 := by
  unfold daySlots at hmem
  split_ifs at hmem with h1 h2
  · simp at hmem
  all_goals exact of_decide_eq_true (List.mem_filter.1 hmem).2

theorem daySlots_sound (now : Nat) (busy : List (Nat × Nat)) (day : Nat)
    (slot : Nat × Nat) (hmem : slot ∈ daySlots now busy day) (p : Nat)
    (hp : memIv p slot) :
    now ≤ p ∧ day * usPerDay + 9 * usPerHour ≤ p ∧
      p < day * usPerDay + 21 * usPerHour ∧
      ∀ b ∈ busy, b.1 / usPerDay = day → ¬ memIv p b := by
  unfold daySlots at hmem
  split_ifs at hmem with h1 h2
  · simp at hmem
  all_goals
    obtain ⟨hmem2, -⟩ := List.mem_filter.1 hmem
  all_goals
    obtain ⟨⟨seg, hseg, hpseg⟩, hnb⟩ :=
      subtractDayBusy_sound day busy _ slot hmem2 p hp
  all_goals
    simp only [List.mem_singleton] at hseg
  all_goals
    subst hseg
  all_goals
    rw [memIv_mk] at hpseg
  all_goals
    exact ⟨by omega, by omega, by omega, hnb⟩

/-- C4 (amended): every point of every generated FreeSlot lies at or after
now, inside the 09:00-21:00 working envelope, and outside every supplied
busy interval whose start date is the slot's date.  (Busy intervals that
extend past midnight into a later day are only subtracted from their start
date's window, so the unconditional claim fails.) -/
theorem generate_free_slots_no_invented_time (now : Nat)
    (busyRaw : List (Nat × Nat)) (horizonDays : Nat) (slot : Nat × Nat)
    (hmem : slot ∈ generate_free_slots now busyRaw horizonDays) (p : Nat)
    (hp : memIv p slot) :
    (now ≤ p ∧ 9 * usPerHour ≤ p % usPerDay ∧ p % usPerDay < 21 * usPerHour) ∧
    ∀ b ∈ busyRaw, b.1 / usPerDay = slot.1 / usPerDay → ¬ memIv p b := by
  unfold generate_free_slots at hmem
  rcases mem_foldl_append _ _ _ slot hmem with h | ⟨dayOffset, hdo, hslot⟩
  · simp at h
  · obtain ⟨hnow, hlo, hhi, hbusy⟩ := daySlots_sound now _ _ slot hslot p hp
    have hlen := daySlots_minlen now _ _ slot hslot
    have hp1 : memIv slot.1 slot := by
      constructor
      · exact Nat.le_refl _
      · have : (0 : Nat) < 30 * usPerMin := by decide
        omega
    obtain ⟨-, hlo2, hhi2, -⟩ := daySlots_sound now _ _ slot hslot slot.1 hp1
    have henv : 9 * usPerHour ≤ p % usPerDay ∧ p % usPerDay < 21 * usPerHour := by
      simp only [usPerDay, usPerHour, usPerMin, usPerSec] at hlo hhi
      simp only [usPerDay, usPerHour, usPerMin, usPerSec]
      omega
    have hslotday : slot.1 / usPerDay = now / usPerDay + dayOffset := by
      simp only [usPerDay, usPerHour, usPerMin, usPerSec] at hlo2 hhi2
      simp only [usPerDay, usPerHour, usPerMin, usPerSec]
      omega
    refine ⟨⟨hnow, henv.1, henv.2⟩, ?_⟩
    intro b hb hd
    by_cases hb2 : now < b.2
    · have hbmem : b ∈ sortByStart (busyRaw.filter (fun x => decide (now < x.2))) := by
        rw [sortByStart, mem_sortLe]
        exact List.mem_filter.2 ⟨hb, by simpa using hb2⟩
      rw [hslotday] at hd
      exact hbusy b hbmem hd
    · intro hpb
      obtain ⟨hbl, hbr⟩ := hpb
      omega

/-- C4 counterexample: with now = 08:00 on day 0 and the single busy
interval [22:00 day 0, 10:00 day 1), the generator emits the day-1 slot
[09:00, 21:00) whose start lies inside the supplied busy interval, because
busy intervals are only matched against their start date. -/
theorem generate_free_slots_crossday_cex :
    (118800000000, 162000000000) ∈
      generate_free_slots 28800000000 [(79200000000, 122400000000)] 2 ∧
    memIv 118800000000 (118800000000, 162000000000) ∧
    memIv 118800000000 (79200000000, 122400000000) := by
  decide

/-- C4 witness: with no busy intervals and now at midnight, the day-0 slot
[09:00, 21:00) is generated and its first point is in the envelope. -/
theorem generate_free_slots_no_invented_time_witness :
    ((0 : Nat) ≤ 32400000000 ∧ 9 * usPerHour ≤ 32400000000 % usPerDay ∧
      32400000000 % usPerDay < 21 * usPerHour) ∧
    ∀ b ∈ ([] : List (Nat × Nat)),
      b.1 / usPerDay = (32400000000, 75600000000).1 / usPerDay →
        ¬ memIv 32400000000 b :=
  generate_free_slots_no_invented_time 0 [] 1 (32400000000, 75600000000)
    (by decide) 32400000000 (by decide)

/-- Output record for one placed assignment, the dict built at
src/main.py:2867 (title, start, end, focus, module_id); the end timestamp is
named endTime because end is reserved in Lean. -/
structure Scheduled where
  title : String
  start : Nat
  endTime : Nat
  focus : Option String
  moduleId : Option Int
  deriving DecidableEq

/-- One work-item request (subtask dict) after the external boundary:
estimatedUs models estimated_hours converted exactly to microseconds (none
when missing or unparsable, matching the try/except default), plannedStart
models the resolved preferred-time hint _parse_plan_hint returns (none when
absent or unparsable). -/
structure Subtask where
  title : Option String
  estimatedUs : Option Int
  plannedStart : Option Nat
  focus : Option String
  deriving DecidableEq

/-- Duration policy of _schedule_ai_subtasks (src/main.py:2766): default 2.0
hours when missing or unparsable, clamped to [0.5, 6.0] hours; here in
microseconds (0.5h = 1800000000, 2h = 7200000000, 6h = 21600000000). -/
def durationUs (sub : Subtask) : Nat :=
  (max 1800000000 (min (sub.estimatedUs.getD 7200000000) 21600000000)).toNat

/-- Target-time policy (src/main.py:2773): the resolved hint when present;
otherwise, with a deadline, now + max(deadline - now, 1 day) * idx /
max(total - 1, 1); otherwise now + idx days.  Python computes the scale with
float arithmetic rounded to whole microseconds; the sub-microsecond rounding
is modelled as round-half-up, exact in every case evaluated here.  The Nat
truncation of d - now coincides with Python max(due - now, 1 day) because a
negative timedelta is below one day. -/
def targetTime (now : Nat) (due : Option Nat) (hint : Option Nat)
    (idx total : Nat) : Nat :=
  match hint with
  | some t => t
  | none =>
    match due with
    | some d =>
      now + (2 * (max (d - now) usPerDay) * idx + max (total - 1) 1) /
        (2 * max (total - 1) 1)
    | none => now + idx * usPerDay

/-- The re-snap target used when rounding went below the slot start
(src/main.py:2723): next :30 of the same hour when minute < 30, else the
next full hour. -/
def resnapCandidate (start : Nat) : Nat :=
  if minuteOfHour start < 30 then floorHour start + 30 * usPerMin
  else floorHour start + usPerHour

/-- Rounded start-time computation with the defensive re-snap, identical in
consume_slot (src/main.py:2719) and in the candidate loop (2811): round to
the grid; if that went below the slot start, re-snap forward, and if still
below fall back to the start floored to its minute. -/
def defendedRoundStart (start : Nat) : Nat :=
  if round_to_nearest_half_hour start < start then
    (if resnapCandidate start < start then floorMinute start
     else resnapCandidate start)
  else round_to_nearest_half_hour start

/-- Rounded and clamped end time, identical in consume_slot
(src/main.py:2737) and the candidate loop (2824): round aStart + duration to
the grid; when the rounded value exceeds the slot end, clamp to the slot end
floored to its minute. -/
def tentEnd1 (aStart slotEnd duration : Nat) : Nat :=
  if slotEnd < round_to_nearest_half_hour (aStart + duration) then
    floorMinute slotEnd
  else round_to_nearest_half_hour (aStart + duration)

/-- End-time fixup (src/main.py:2745): when the rounded/clamped end does not
exceed the start, fall back to aStart + duration. -/
def tentEnd (aStart slotEnd duration : Nat) : Nat :=
  if tentEnd1 aStart slotEnd duration ≤ aStart then aStart + duration
  else tentEnd1 aStart slotEnd duration

/-- consume_slot (src/main.py:2712) acting on the selected slot (s, e):
either none (slot rejected: too small for duration + buffer, rounded start
at or past the end, or the end fixup overruns the slot), or the assigned
interval together with the remainder slot (none when fully consumed):
(assignedEnd + buffer, e) when that start is at or before e, else
(assignedEnd, e) when assignedEnd < e, else no remainder. -/
def consumeAt (s e duration : Nat) : Option ((Nat × Nat) × Option (Nat × Nat)) :=
  if e - s < duration + bufferUs then none
  else if e ≤ defendedRoundStart s then none
  else if tentEnd1 (defendedRoundStart s) e duration ≤ defendedRoundStart s ∧
      e < defendedRoundStart s + duration then none
  else
    some ((defendedRoundStart s, tentEnd (defendedRoundStart s) e duration),
      if tentEnd (defendedRoundStart s) e duration + bufferUs ≤ e then
        some (tentEnd (defendedRoundStart s) e duration + bufferUs, e)
      else if tentEnd (defendedRoundStart s) e duration < e then
        some (tentEnd (defendedRoundStart s) e duration, e)
      else none)

/-- consume_slot including its queue mutation: replace the consumed slot by
the remainder, or pop it when there is none.  A Python IndexError (index out
of range) cannot occur at the call site, which only passes in-range indices;
it is modelled as none. -/
def consume_slot (queue : List (Nat × Nat)) (idx : Nat) (duration : Nat) :
    Option ((Nat × Nat) × List (Nat × Nat)) :=
  if queue.length ≤ idx then none
  else
    match consumeAt (queue.getD idx (0, 0)).1 (queue.getD idx (0, 0)).2 duration with
    | none => none
    | some (assigned, some rem) => some (assigned, queue.set idx rem)
    | some (assigned, none) => some (assigned, queue.eraseIdx idx)

/-- Overlap defense (src/main.py:2845): the tentative interval, extended by
the 30-minute buffer on its trailing edge, is compared against every already
scheduled assignment extended the same way. -/
def overlapsExisting (scheduled : List Scheduled) (ps pe : Nat) : Bool :=
  scheduled.any (fun ex =>
    decide (ps < ex.endTime + bufferUs) && decide (ex.start < pe + bufferUs))

/-- Candidate ranking key (src/main.py:2793): whether the slot starts before
the target (at-or-after preferred), the number of already placed assignments
on the slot's calendar day, and the absolute distance from slot start to
target.  Python measures the distance in float seconds; microseconds order
identically. -/
def candKey (queue : List (Nat × Nat)) (scheduled : List Scheduled)
    (target : Nat) (i : Nat) : Nat × Nat × Nat :=
  ((if target ≤ (queue.getD i (0, 0)).1 then 0 else 1),
   scheduled.countP
     (fun a => decide (a.start / usPerDay = (queue.getD i (0, 0)).1 / usPerDay)),
   (if target ≤ (queue.getD i (0, 0)).1 then (queue.getD i (0, 0)).1 - target
    else target - (queue.getD i (0, 0)).1))

/-- Lexicographic comparison of ranking keys, the model of Python tuple
comparison under list.sort. -/
def tripleLe (a b : Nat × Nat × Nat) : Bool :=
  decide (a.1 < b.1) || (decide (a.1 = b.1) &&
    (decide (a.2.1 < b.2.1) || (decide (a.2.1 = b.2.1) && decide (a.2.2 ≤ b.2.2))))

def candLe (queue : List (Nat × Nat)) (scheduled : List Scheduled)
    (target : Nat) (i j : Nat) : Bool :=
  tripleLe (candKey queue scheduled target i) (candKey queue scheduled target j)

/-- Candidate loop of _schedule_ai_subtasks (src/main.py:2802): try ranked
slot indices in order; skip indices out of range, slots too small for
duration + buffer, slots whose rounded start reaches the slot end, the
unrecoverable end-overrun case, and candidates whose tentative interval
fails the overlap defense; on the first surviving candidate consume the
slot.  When consume_slot itself declines (it rechecks the same conditions),
the loop moves on with the queue unchanged, as in the source. -/
def findSlot (scheduled : List Scheduled) (duration : Nat)
    (queue : List (Nat × Nat)) :
    List Nat → Option ((Nat × Nat) × List (Nat × Nat))
  | [] => none
  | i :: rest =>
    if queue.length ≤ i then findSlot scheduled duration queue rest
    else if (queue.getD i (0, 0)).2 - (queue.getD i (0, 0)).1 <
        duration + bufferUs then
      findSlot scheduled duration queue rest
    else if (queue.getD i (0, 0)).2 ≤ defendedRoundStart (queue.getD i (0, 0)).1 then
      findSlot scheduled duration queue rest
    else if tentEnd1 (defendedRoundStart (queue.getD i (0, 0)).1)
        (queue.getD i (0, 0)).2 duration ≤ defendedRoundStart (queue.getD i (0, 0)).1 ∧
        (queue.getD i (0, 0)).2 < defendedRoundStart (queue.getD i (0, 0)).1 + duration then
      findSlot scheduled duration queue rest
    else if overlapsExisting scheduled (defendedRoundStart (queue.getD i (0, 0)).1)
        (tentEnd (defendedRoundStart (queue.getD i (0, 0)).1)
          (queue.getD i (0, 0)).2 duration) then
      findSlot scheduled duration queue rest
    else
      match consume_slot queue i duration with
      | some r => some r
      | none => findSlot scheduled duration queue rest

/-- Main request loop of _schedule_ai_subtasks (src/main.py:2765): process
subtasks in input order; each one either becomes exactly one scheduled
assignment (replacing its slot by the remainder) or is appended unchanged to
the unscheduled list. -/
def runLoop (now : Nat) (due : Option Nat) (total : Nat) (title : String)
    (moduleId : Option Int) :
    List Subtask → Nat → List (Nat × Nat) → List Scheduled → List Subtask →
      List Scheduled × List Subtask
  | [], _, _, scheduled, unscheduled => (scheduled, unscheduled)
  | sub :: rest, idx, queue, scheduled, unscheduled =>
    match findSlot scheduled (durationUs sub) queue
        (sortLe (candLe queue scheduled (targetTime now due sub.plannedStart idx total))
          (List.range queue.length)) with
    | some (a, queue2) =>
      runLoop now due total title moduleId rest (idx + 1) queue2
        (scheduled ++ [{ title := title ++ ": " ++ (sub.title.getD "Subtask"),
                         start := a.1, endTime := a.2,
                         focus := sub.focus, moduleId := moduleId }])
        unscheduled
    | none =>
      runLoop now due total title moduleId rest (idx + 1) queue scheduled
        (unscheduled ++ [sub])

/-- Embedding of _schedule_ai_subtasks (src/main.py:2688) downstream of its
external boundaries: free_slots is the generated free-slot list, due the
parsed deadline, and each subtask carries its resolved hint.  An empty
free-slot list short-circuits to ([], subtasks); an empty subtask list
returns ([], []); the subtask-count check happens after the queue build in
the source, which is observationally the same. -/
def schedule_ai_subtasks (now : Nat) (free_slots : List (Nat × Nat))
    (due : Option Nat) (subtasks : List Subtask) (assignment_title : String)
    (moduleId : Option Int) : List Scheduled × List Subtask :=
  if free_slots.isEmpty then ([], subtasks)
  else if subtasks.length = 0 then ([], [])
  else
    runLoop now due subtasks.length assignment_title moduleId subtasks 0
      (buildSlotQueue free_slots due) [] []

/-- C6: with an empty free-slot list the run short-circuits: no assignments
and every request returned unscheduled in the original input order, with no
error path. -/
theorem schedule_empty_slots (now : Nat) (due : Option Nat)
    (subtasks : List Subtask) (title : String) (moduleId : Option Int) :
    schedule_ai_subtasks now [] due subtasks title moduleId = ([], subtasks) :=
  rfl

/-- C7 counterexample: deadline 12 hours away, two requests, request index
1: the code targets now + 1 day, because the interpolation window is clamped
below by one day, not now + (deadline - now) * (1/1) = now + 12 hours as the
claim states.  Every arithmetic step here is exact, so the float rounding
model plays no role at this input. -/
theorem targetTime_window_clamp_cex :
    targetTime 0 (some 43200000000) none 1 2 = 86400000000 ∧
    (86400000000 : Nat) ≠ 0 + (43200000000 - 0) * 1 / 1 := by
  decide

/-- C7 (amended): for a request with no preferred-time hint, when a deadline
at least one day away is known the target interpolates between now and the
deadline by idx / max(count - 1, 1); when the deadline is nearer than one
day (or past) the window is clamped to one day; when no deadline is known
the target is now + idx days. -/
theorem targetTime_policy (now d idx total : Nat) :
    (now + usPerDay ≤ d →
      targetTime now (some d) none idx total =
        now + (2 * (d - now) * idx + max (total - 1) 1) /
          (2 * max (total - 1) 1)) ∧
    (d ≤ now + usPerDay →
      targetTime now (some d) none idx total =
        now + (2 * usPerDay * idx + max (total - 1) 1) /
          (2 * max (total - 1) 1)) ∧
    targetTime now none none idx total = now + idx * usPerDay := by
  refine ⟨fun h => ?_, fun h => ?_, rfl⟩
  · show now + (2 * max (d - now) usPerDay * idx + max (total - 1) 1) /
        (2 * max (total - 1) 1) = _
    have hm : max (d - now) usPerDay = d - now := by
      simp only [usPerDay, usPerHour, usPerMin, usPerSec] at h ⊢
      omega
    rw [hm]
  · show now + (2 * max (d - now) usPerDay * idx + max (total - 1) 1) /
        (2 * max (total - 1) 1) = _
    have hm : max (d - now) usPerDay = usPerDay := by
      simp only [usPerDay, usPerHour, usPerMin, usPerSec] at h ⊢
      omega
    rw [hm]

/-- C7 witness: deadline two days out, three requests, index 1. -/
theorem targetTime_policy_witness :
    targetTime 0 (some (2 * usPerDay)) none 1 3 =
      0 + (2 * (2 * usPerDay - 0) * 1 + max (3 - 1) 1) / (2 * max (3 - 1) 1) :=
  (targetTime_policy 0 (2 * usPerDay) 1 3).1 (by decide)

theorem floorMinute_le (t : Nat) : floorMinute t ≤ t :=
  Nat.div_mul_le_self t usPerMin

theorem tentEnd_le (aStart e duration : Nat)
    (h3 : ¬ (tentEnd1 aStart e duration ≤ aStart ∧ e < aStart + duration)) :
    tentEnd aStart e duration ≤ e := by
  have hf := floorMinute_le e
  unfold tentEnd
  split_ifs with h4
  · omega
  · unfold tentEnd1 at h4 ⊢
    split_ifs at h4 ⊢ with h5
    · omega
    · omega

theorem consumeAt_spec (s e duration : Nat) (a : Nat × Nat)
    (rem : Option (Nat × Nat)) (h : consumeAt s e duration = some (a, rem)) :
    a = (defendedRoundStart s, tentEnd (defendedRoundStart s) e duration) ∧
    a.2 ≤ e ∧
    rem = (if a.2 + bufferUs ≤ e then some (a.2 + bufferUs, e)
           else if a.2 < e then some (a.2, e) else none) := by
  unfold consumeAt at h
  split_ifs at h with h1 h2 h3 h4 h5
  all_goals first
    | exact Option.noConfusion h
    | (simp only [Option.some.injEq, Prod.mk.injEq] at h
       obtain ⟨ha, hrem⟩ := h
       subst ha
       subst hrem
       dsimp only
       refine ⟨rfl, tentEnd_le _ _ _ h3, ?_⟩
       first
         | rw [if_pos h4]
         | rw [if_neg h4, if_pos h5]
         | rw [if_neg h4, if_neg h5])

theorem consume_slot_spec (queue : List (Nat × Nat)) (idx duration : Nat)
    (a : Nat × Nat) (queue2 : List (Nat × Nat))
    (h : consume_slot queue idx duration = some (a, queue2)) :
    idx < queue.length ∧
    a = (defendedRoundStart (queue.getD idx (0, 0)).1,
         tentEnd (defendedRoundStart (queue.getD idx (0, 0)).1)
           (queue.getD idx (0, 0)).2 duration) ∧
    a.2 ≤ (queue.getD idx (0, 0)).2 ∧
    (a.2 + bufferUs ≤ (queue.getD idx (0, 0)).2 →
      queue2 = queue.set idx (a.2 + bufferUs, (queue.getD idx (0, 0)).2)) ∧
    ((queue.getD idx (0, 0)).2 < a.2 + bufferUs →
      a.2 < (queue.getD idx (0, 0)).2 →
      queue2 = queue.set idx (a.2, (queue.getD idx (0, 0)).2)) ∧
    ((queue.getD idx (0, 0)).2 ≤ a.2 → queue2 = queue.eraseIdx idx) := by
  have hbuf : (0 : Nat) < bufferUs := by decide
  unfold consume_slot at h
  split_ifs at h with h1
  all_goals try exact Option.noConfusion h
  rcases hc : consumeAt (queue.getD idx (0, 0)).1 (queue.getD idx (0, 0)).2
      duration with - | ⟨assigned, rem0⟩
  · rw [hc] at h
    exact Option.noConfusion h
  · rw [hc] at h
    obtain ⟨hadef, hle, hrem⟩ := consumeAt_spec _ _ _ _ _ hc
    rcases rem0 with - | rem
    · dsimp only at h
      simp only [Option.some.injEq, Prod.mk.injEq] at h
      obtain ⟨ha, hq2⟩ := h
      subst ha
      subst hq2
      refine ⟨by omega, hadef, hle, ?_, ?_, ?_⟩
      · intro hc2
        rw [if_pos hc2] at hrem
        exact Option.noConfusion hrem
      · intro hc1 hc2
        rw [if_neg (by omega), if_pos hc2] at hrem
        exact Option.noConfusion hrem
      · intro hc2
        rfl
    · dsimp only at h
      simp only [Option.some.injEq, Prod.mk.injEq] at h
      obtain ⟨ha, hq2⟩ := h
      subst ha
      subst hq2
      refine ⟨by omega, hadef, hle, ?_, ?_, ?_⟩
      · intro hc2
        rw [if_pos hc2] at hrem
        simp only [Option.some.injEq] at hrem
        rw [hrem]
      · intro hc1 hc2
        rw [if_neg (by omega), if_pos hc2] at hrem
        simp only [Option.some.injEq] at hrem
        rw [hrem]
      · intro hc2
        rw [if_neg (by omega), if_neg (by omega)] at hrem
        exact Option.noConfusion hrem

/-- C5 counterexample: the slot [09:00, 11:30) with duration 2h is accepted;
the assignment is [09:00, 11:00) and assignedEnd + 30min equals the slot end
exactly, so the zero-duration remainder (11:30, 11:30) is kept in the queue,
contradicting the claim that no zero-duration remainder is ever kept. -/
theorem consume_slot_zero_remainder_cex :
    consume_slot [(32400000000, 41400000000)] 0 7200000000 =
      some ((32400000000, 39600000000), [(41400000000, 41400000000)]) ∧
    (41400000000 : Nat) - 41400000000 = 0 := by
  decide

/-- C5 (amended): when consume_slot accepts, the remainder it stores for the
consumed slot (s, e) is (assignedEnd + 30min, e) whenever
assignedEnd + 30min ≤ e — including the zero-duration remainder kept when
equality holds — otherwise (assignedEnd, e) when assignedEnd < e, otherwise
the slot is removed from the queue; the assigned end never exceeds e. -/
theorem consume_slot_remainder_policy (queue : List (Nat × Nat))
    (idx duration : Nat) (a : Nat × Nat) (queue2 : List (Nat × Nat))
    (h : consume_slot queue idx duration = some (a, queue2)) :
    a.2 ≤ (queue.getD idx (0, 0)).2 ∧
    (a.2 + bufferUs ≤ (queue.getD idx (0, 0)).2 →
      queue2 = queue.set idx (a.2 + bufferUs, (queue.getD idx (0, 0)).2)) ∧
    ((queue.getD idx (0, 0)).2 < a.2 + bufferUs →
      a.2 < (queue.getD idx (0, 0)).2 →
      queue2 = queue.set idx (a.2, (queue.getD idx (0, 0)).2)) ∧
    ((queue.getD idx (0, 0)).2 ≤ a.2 → queue2 = queue.eraseIdx idx) := by
  obtain ⟨-, -, hle, h4, h5, h6⟩ := consume_slot_spec queue idx duration a queue2 h
  exact ⟨hle, h4, h5, h6⟩

/-- C5 witness: a concrete accepted run in which assignedEnd + 30min lands
exactly on the slot end, exercising the first remainder branch. -/
theorem consume_slot_remainder_policy_witness :
    [((41400000000 : Nat), 41400000000)] =
      [((32400000000 : Nat), 41400000000)].set 0
        (((32400000000 : Nat), 39600000000).2 + bufferUs,
         ([((32400000000 : Nat), 41400000000)].getD 0 (0, 0)).2) :=
  (consume_slot_remainder_policy [(32400000000, 41400000000)] 0 7200000000
    (32400000000, 39600000000) [(41400000000, 41400000000)] (by decide)).2.1
    (by decide)

/-- findSlot only succeeds with an assignment whose buffered interval passed
the overlap defense against every already scheduled assignment. -/
theorem findSlot_no_overlap (scheduled : List Scheduled) (duration : Nat)
    (queue : List (Nat × Nat)) (cands : List Nat) (a : Nat × Nat)
    (queue2 : List (Nat × Nat))
    (h : findSlot scheduled duration queue cands = some (a, queue2)) :
    overlapsExisting scheduled a.1 a.2 = false := by
  induction cands with
  | nil => exact Option.noConfusion h
  | cons i rest ih =>
    unfold findSlot at h
    split_ifs at h with h1 h2 h3 h4 h5
    all_goals try exact ih h
    rcases hc : consume_slot queue i duration with - | r
    · rw [hc] at h
      exact ih h
    · rw [hc] at h
      dsimp only at h
      simp only [Option.some.injEq] at h
      subst h
      obtain ⟨-, hadef, -⟩ := consume_slot_spec _ _ _ _ _ hc
      rw [hadef]
      dsimp only
      simp only [Bool.not_eq_true] at h5
      exact h5

theorem overlapsExisting_false (scheduled : List Scheduled) (ps pe : Nat)
    (h : overlapsExisting scheduled ps pe = false) :
    ∀ ex ∈ scheduled, ex.endTime + bufferUs ≤ ps ∨ pe + bufferUs ≤ ex.start := by
  intro ex hex
  unfold overlapsExisting at h
  rw [List.any_eq_false] at h
  have h2 := h ex hex
  simp only [Bool.and_eq_true, decide_eq_true_eq, not_and, Nat.not_lt] at h2
  omega

theorem runLoop_pairwise (now : Nat) (due : Option Nat) (total : Nat)
    (title : String) (moduleId : Option Int) :
    ∀ (subs : List Subtask) (idx : Nat) (queue : List (Nat × Nat))
      (scheduled : List Scheduled) (uns : List Subtask),
      scheduled.Pairwise (fun x y =>
        x.endTime + bufferUs ≤ y.start ∨ y.endTime + bufferUs ≤ x.start) →
      (runLoop now due total title moduleId subs idx queue scheduled
          uns).1.Pairwise (fun x y =>
        x.endTime + bufferUs ≤ y.start ∨ y.endTime + bufferUs ≤ x.start) := by
  intro subs
  induction subs with
  | nil =>
    intro idx queue scheduled uns hp
    exact hp
  | cons sub rest ih =>
    intro idx queue scheduled uns hp
    unfold runLoop
    rcases hf : findSlot scheduled (durationUs sub) queue
        (sortLe (candLe queue scheduled
          (targetTime now due sub.plannedStart idx total))
          (List.range queue.length)) with - | ⟨a, queue2⟩
    · dsimp only
      exact ih _ _ _ _ hp
    · dsimp only
      apply ih
      rw [List.pairwise_append]
      refine ⟨hp, by simp, ?_⟩
      intro x hx y hy
      simp only [List.mem_singleton] at hy
      subst hy
      have hov := findSlot_no_overlap _ _ _ _ _ _ hf
      have hdisj := overlapsExisting_false _ _ _ hov x hx
      exact hdisj

/-- C1: any two distinct assignments produced by one scheduling run, each
extended by the 30-minute buffer on its trailing edge, have no common point. -/
theorem schedule_no_overlap (now : Nat) (free_slots : List (Nat × Nat))
    (due : Option Nat) (subtasks : List Subtask) (title : String)
    (moduleId : Option Int) :
    (schedule_ai_subtasks now free_slots due subtasks title
        moduleId).1.Pairwise (fun x y => ∀ p : Nat,
      ¬ (x.start ≤ p ∧ p < x.endTime + bufferUs ∧
         y.start ≤ p ∧ p < y.endTime + bufferUs)) := by
  have key : (schedule_ai_subtasks now free_slots due subtasks title
      moduleId).1.Pairwise (fun x y =>
        x.endTime + bufferUs ≤ y.start ∨ y.endTime + bufferUs ≤ x.start) := by
    unfold schedule_ai_subtasks
    split_ifs with h1 h2
    · simp
    · simp
    · exact runLoop_pairwise now due subtasks.length title moduleId subtasks 0
        (buildSlotQueue free_slots due) [] [] (by simp)
  refine key.imp ?_
  intro x y hxy p hp
  omega

theorem runLoop_partition (now : Nat) (due : Option Nat) (total : Nat)
    (title : String) (moduleId : Option Int) :
    ∀ (subs : List Subtask) (idx : Nat) (queue : List (Nat × Nat))
      (scheduled : List Scheduled) (uns : List Subtask),
      (runLoop now due total title moduleId subs idx queue scheduled
          uns).1.length +
        (runLoop now due total title moduleId subs idx queue scheduled
          uns).2.length = scheduled.length + uns.length + subs.length ∧
      ∃ u2, (runLoop now due total title moduleId subs idx queue scheduled
          uns).2 = uns ++ u2 ∧ u2.Sublist subs := by
  intro subs
  induction subs with
  | nil =>
    intro idx queue scheduled uns
    exact ⟨by simp [runLoop], [], by simp [runLoop], List.Sublist.refl []⟩
  | cons sub rest ih =>
    intro idx queue scheduled uns
    unfold runLoop
    rcases hf : findSlot scheduled (durationUs sub) queue
        (sortLe (candLe queue scheduled
          (targetTime now due sub.plannedStart idx total))
          (List.range queue.length)) with - | ⟨a, queue2⟩
    · dsimp only
      obtain ⟨hlen, u2, hu, hsub⟩ := ih (idx + 1) queue scheduled (uns ++ [sub])
      refine ⟨by simp only [List.length_append, List.length_cons,
        List.length_singleton, List.length_nil] at hlen ⊢; omega, sub :: u2, ?_, hsub.cons₂ sub⟩
      rw [hu, List.append_assoc]
      rfl
    · dsimp only
      obtain ⟨hlen, u2, hu, hsub⟩ := ih (idx + 1) queue2 (scheduled ++
        [{ title := title ++ ": " ++ (sub.title.getD "Subtask"),
           start := a.1, endTime := a.2,
           focus := sub.focus, moduleId := moduleId }]) uns
      refine ⟨by simp only [List.length_append, List.length_cons,
        List.length_singleton, List.length_nil] at hlen ⊢; omega, u2, hu, hsub.cons sub⟩

/-- C10: with a non-empty free-slot list and a non-empty request list, each
request contributes exactly one output: the number of scheduled plus
unscheduled results equals the number of requests, and the unscheduled list
is a subsequence of the input request list. -/
theorem schedule_partition_requests (now : Nat) (free_slots : List (Nat × Nat))
    (due : Option Nat) (subtasks : List Subtask) (title : String)
    (moduleId : Option Int) (hfs : free_slots ≠ []) (hsub : subtasks ≠ []) :
    (schedule_ai_subtasks now free_slots due subtasks title
        moduleId).1.length +
      (schedule_ai_subtasks now free_slots due subtasks title
        moduleId).2.length = subtasks.length ∧
    (schedule_ai_subtasks now free_slots due subtasks title
        moduleId).2.Sublist subtasks := by
  unfold schedule_ai_subtasks
  rw [if_neg (by simpa using hfs),
    if_neg (by simpa [List.length_eq_zero] using hsub)]
  obtain ⟨hlen, u2, hu, hsubl⟩ := runLoop_partition now due subtasks.length
    title moduleId subtasks 0 (buildSlotQueue free_slots due) [] []
  refine ⟨by simpa using hlen, ?_⟩
  rw [hu]
  simpa using hsubl

/-- C10 witness: one 2-hour request against the single slot [09:00, 21:00). -/
theorem schedule_partition_requests_witness :
    (schedule_ai_subtasks 0 [(32400000000, 75600000000)] none
        [{ title := some "A", estimatedUs := some 7200000000,
           plannedStart := none, focus := none }] "T" none).1.length +
      (schedule_ai_subtasks 0 [(32400000000, 75600000000)] none
        [{ title := some "A", estimatedUs := some 7200000000,
           plannedStart := none, focus := none }] "T" none).2.length = 1 ∧
    (schedule_ai_subtasks 0 [(32400000000, 75600000000)] none
        [{ title := some "A", estimatedUs := some 7200000000,
           plannedStart := none, focus := none }] "T" none).2.Sublist
      [{ title := some "A", estimatedUs := some 7200000000,
         plannedStart := none, focus := none }] :=
  schedule_partition_requests 0 [(32400000000, 75600000000)] none
    [{ title := some "A", estimatedUs := some 7200000000,
       plannedStart := none, focus := none }] "T" none
    (by simp) (by simp)
